import Mathlib

/-!
Verification development for the `nscloader` tag-aware tokenizer and
interval/stream-merge engine (`nscloader/interval.py`, `nscloader/nscloader.py`).

The Python source is shallowly embedded: pure string manipulation is modelled
over `List Char` / `String` (ASCII semantics for the character classes `\w`,
`\d`, `\s`, matching the corpus data the code processes), Python `float` values
of decimal literals are modelled exactly as rationals (`ℚ`), and code that can
raise an exception returns `Option`/`Except`.
-/

set_option maxRecDepth 8192

namespace NSC

/-! ### Python-style string primitives (over `List Char`)

These model the Python built-ins the source relies on: `str.lower`,
`str.strip`, `str.split()`, `str.replace`, the substring test `in`,
`str.startswith` / `str.endswith`. -/

/-- Python whitespace test (ASCII fragment), used by `str.strip`/`str.split`
and the regex class `\s`. -/
def isWs (c : Char) : Bool :=
  c = ' ' || c = '\t' || c = '\n' || c = '\r'

/-- `str.strip()` : drop leading and trailing whitespace. -/
def pyStrip (cs : List Char) : List Char :=
  ((cs.dropWhile isWs).reverse.dropWhile isWs).reverse

/-- Helper for `pySplitWs`: `acc` holds the current non-whitespace run,
reversed. -/
def pySplitWsAux (acc : List Char) : List Char → List (List Char)
  | [] => if acc.isEmpty then [] else [acc.reverse]
  | c :: cs =>
    if isWs c then
      if acc.isEmpty then pySplitWsAux [] cs
      else acc.reverse :: pySplitWsAux [] cs
    else pySplitWsAux (c :: acc) cs

/-- Maximal runs of non-whitespace characters, as produced by Python
`str.split()` (empty pieces are never produced). -/
def pySplitWs (cs : List Char) : List (List Char) :=
  pySplitWsAux [] cs

/-- Helper for `listReplace`; the fuel starts at `cs.length` and each step
consumes at least one character of `cs`, so it never runs out. -/
def listReplaceAux (pat rep : List Char) : Nat → List Char → List Char
  | 0, cs => cs
  | _ + 1, [] => []
  | fuel + 1, c :: cs =>
    if !pat.isEmpty && pat.isPrefixOf (c :: cs) then
      rep ++ listReplaceAux pat rep fuel ((c :: cs).drop pat.length)
    else
      c :: listReplaceAux pat rep fuel cs

/-- `str.replace(pat, rep)` : replace all non-overlapping occurrences,
left to right.  (The source only calls this with a non-empty `pat`;
for `pat = []` we return the input unchanged.) -/
def listReplace (cs pat rep : List Char) : List Char :=
  listReplaceAux pat rep cs.length cs

/-- `str.lower()` (ASCII). -/
def strLower (s : String) : String := ⟨s.data.map Char.toLower⟩

/-- Python's substring test `pat in hay`. -/
def strContains (hay pat : String) : Bool := decide (pat.data <:+: hay.data)

/-- `str.startswith`. -/
def strStarts (s p : String) : Bool := decide (p.data <+: s.data)

/-- `str.endswith`. -/
def strEnds (s p : String) : Bool := decide (p.data <:+ s.data)

/-- `str.replace` lifted to `String`. -/
def strReplace (s pat rep : String) : String :=
  ⟨listReplace s.data pat.data rep.data⟩

/-- `' '.join(s.split())` — the whitespace normalization used for
`Token.content`. -/
def normWs (s : String) : String :=
  ⟨List.intercalate [' '] (pySplitWs s.data)⟩

/-! ### The tag table (`interval.py`, `class Tag(Enum)`)

Members are listed in the source's declaration order, which is semantically
relevant: `Token.__init__` scans `Tag.__members__` in this order and the
first match wins. -/

inductive Tag where
  | PPB | PPC | PPL | PPO | FIL
  | INV | Z | S | UNK | SPK | STA | NON | NPS | NEN
  | MW | IN | IC
  | DD | FF | HH | II
  | SEN | C
deriving DecidableEq, Repr

/-- The surface form of each tag (`Tag.<member>.value`). -/
def Tag.value : Tag → String
  | .PPB => "(ppb)"
  | .PPC => "(ppc)"
  | .PPL => "(ppl)"
  | .PPO => "(ppo)"
  | .FIL => "<FIL/>"
  | .INV => "**"
  | .Z   => "<Z>"
  | .S   => "<S>"
  | .UNK => "<UNK>"
  | .SPK => "<SPK/>"
  | .STA => "<STA/>"
  | .NON => "<NON/>"
  | .NPS => "<NPS/>"
  | .NEN => "<NEN>"
  | .MW  => "-"
  | .IN  => "_"
  | .IC  => "~"
  | .DD  => "[ ]"
  | .FF  => "( )"
  | .HH  => "# #"
  | .II  => "! !"
  | .SEN => "</s>"
  | .C   => "</c>"

/-- `Tag.__members__` iteration order (Python enum definition order). -/
def Tag.members : List Tag :=
  [.PPB, .PPC, .PPL, .PPO, .FIL,
   .INV, .Z, .S, .UNK, .SPK, .STA, .NON, .NPS, .NEN,
   .MW, .IN, .IC,
   .DD, .FF, .HH, .II,
   .SEN, .C]

/-- `tag.value.split()` (whitespace split of the surface form). -/
def Tag.words (t : Tag) : List String :=
  (pySplitWs t.value.data).map (fun cs => ⟨cs⟩)

/-- `left, *right = tag.value.split(); left` — the opening form. -/
def Tag.leftForm (t : Tag) : String := (t.words).headD ""

/-- `right[0] if right else None` — the closing form, when the value has two
whitespace-separated parts. -/
def Tag.rightForm (t : Tag) : Option String := (t.words).get? 1

/-- `Tag.pairs()` (without lowercasing). -/
def Tag.pairs : List (String × Option String) :=
  Tag.members.map (fun t => (t.leftForm, t.rightForm))

/-- `Tag.balancedpairs()` — pairs whose `right` part exists. -/
def Tag.balancedpairs : List (String × String) :=
  Tag.pairs.filterMap (fun p => p.2.map (fun r => (p.1, r)))

/-- `TAGS_NONCONTENT` (source order). -/
def TAGS_NONCONTENT : List Tag :=
  [.FIL, .SPK, .STA, .NON, .NPS, .SEN, .C, .S, .Z, .UNK, .NEN,
   .PPB, .PPC, .PPL, .PPO, .INV]

/-- `TAGS_CLITIC` (source order). -/
def TAGS_CLITIC : List Tag := [.MW, .IC, .IN]

/-- `TAGS_BALANCED` (source order). -/
def TAGS_BALANCED : List Tag := [.DD, .FF, .HH, .II]

/-! ### Token construction (`interval.py`, `class Token`) -/

structure Token where
  tag : Option Tag
  content : String
  text : String
  raw : String
deriving DecidableEq, Repr

/-- `Token.balanced_pairs` — the lowercased balanced delimiter pairs. -/
def Token.balanced_pairs : List (String × String) :=
  Tag.balancedpairs.map (fun p => (strLower p.1, strLower p.2))

/-- The tag-assignment scan of `Token.__init__`: the first member of
`Tag.__members__` whose lowercased opening form is a substring of `s`. -/
def findTag (s : String) : Option Tag :=
  Tag.members.find? (fun t =>
    strContains s (((pySplitWs (strLower t.value).data).map
      (fun cs => (⟨cs⟩ : String))).headD ""))

/-- The balance validation of `Token.__init__`: some balanced pair has
exactly one of its two delimiters present in `s`. -/
def hasUnbalancedTags (s : String) : Bool :=
  Token.balanced_pairs.any (fun p => strContains s p.1 != strContains s p.2)

/-- `Token.anchor_tag` for an assigned tag: `tag.value.split()[0]`. -/
def anchorTag (t : Tag) : String := t.leftForm

/-- The opener-stripping step of `Token.__init__` (cleanup branch): with an
assigned tag that is neither `Tag.MW` nor any other clitic, every occurrence
of the lowercased anchor tag is erased from the working text. -/
def stripOpener (s : String) (tag : Option Tag) : String :=
  match tag with
  | none => s
  | some t =>
    if t = Tag.MW then s
    else if TAGS_CLITIC.contains t then s
    else strReplace s (strLower (anchorTag t)) ""

/-- The character class of `Token.words_pattern`:
`[` + escaped clitic forms + `\w' ]` = `-`, `~`, `_`, word chars,
apostrophe, space. -/
def isWordsChar (c : Char) : Bool :=
  c = '-' || c = '~' || c = '_' || c.isAlphanum || c = '\'' || c = ' '

/-- `Token.words_pattern.search(content)` : the first maximal run of
`isWordsChar` characters (`''` when there is no match). -/
def wordsSearch (s : String) : String :=
  ⟨(s.data.dropWhile (fun c => !isWordsChar c)).takeWhile isWordsChar⟩

/-- The canonical re-wrapping forms of `Token.__init__`:
`left, *right = tag.value.split(); right = right and right[0] or ''`. -/
def wrapForms (t : Tag) : String × String :=
  (t.leftForm, (t.rightForm).getD "")

/-- `Token.__init__(string, cleanup)`.  Raising `ValueError('unbalanced tags
in ' + raw)` is modelled as `Except.error`. -/
def Token.make (string : String) (cleanup : Bool) : Except String Token :=
  let s := strLower string
  let tag := findTag s
  if hasUnbalancedTags s then
    .error ("unbalanced tags in " ++ string)
  else if !cleanup then
    .ok { tag := tag, content := s, text := s, raw := string }
  else
    let content := normWs (wordsSearch (stripOpener s tag))
    let wrap : String × String :=
      match tag with
      | some t => if TAGS_CLITIC.contains t then ("", "") else wrapForms t
      | none => ("", "")
    .ok { tag := tag, content := content,
          text := wrap.1 ++ content ++ wrap.2, raw := string }

/-! ### The tokenizer pattern (`Interval.make_tokens_pattern`) and
`re.findall` scanning

`make_tokens_pattern` builds one alternation `(A₁|…|Aₙ)` whose alternatives
are, in order: the lowercased literal surface form of each `TAGS_NONCONTENT`
tag; the word class `[\w-~_']+`; and, for each `TAGS_BALANCED` tag,
`left [\w\-_\s']+ right`.  Python's `re.findall` scans left to right; at each
position the alternation picks the first alternative that matches (each
alternative being greedy internally); on failure the scan advances one
character.  Since no balanced pair's closing delimiter belongs to the inner
character class, the greedy inner run followed by the literal closer is an
exact model of the backtracking behaviour. -/

/-- The regex class `\w` (ASCII): letters, digits, underscore. -/
def isW (c : Char) : Bool := c.isAlphanum || c = '_'

/-- The word-class alternative `[\w-~_']` of `make_tokens_pattern`. -/
def isTokWordChar (c : Char) : Bool :=
  isW c || c = '-' || c = '~' || c = '\''

/-- The inner class `[\w\-_\s']` of the balanced alternatives. -/
def isBalInnerChar (c : Char) : Bool :=
  isW c || c = '-' || c = '_' || isWs c || c = '\''

/-- The lowercased noncontent literals, in `TAGS_NONCONTENT` order. -/
def noncontentLits : List (List Char) :=
  TAGS_NONCONTENT.map (fun t => (strLower t.value).data)

/-- The balanced `(left, right)` single-character delimiters, lowercased, in
`TAGS_BALANCED` order. -/
def balancedLits : List (List Char × List Char) :=
  TAGS_BALANCED.map (fun t =>
    let ws := pySplitWs (strLower t.value).data
    (ws.headD [], (ws.get? 1).getD []))

/-- Match a literal as a prefix, returning the remainder. -/
def dropLit : List Char → List Char → Option (List Char)
  | [], cs => some cs
  | _ :: _, [] => none
  | l :: ls, c :: cs => if l = c then dropLit ls cs else none

/-- Nonempty maximal run of characters satisfying `p`. -/
def takeRun1 (p : Char → Bool) (cs : List Char) :
    Option (List Char × List Char) :=
  if (cs.takeWhile p).isEmpty then none
  else some (cs.takeWhile p, cs.dropWhile p)

/-- Try the noncontent literals in order at the current position. -/
def tryLits : List (List Char) → List Char → Option (List Char × List Char)
  | [], _ => none
  | l :: ls, cs =>
    match dropLit l cs with
    | some rest => some (l, rest)
    | none => tryLits ls cs

/-- Try the balanced alternatives in order at the current position. -/
def tryBalanced : List (List Char × List Char) → List Char →
    Option (List Char × List Char)
  | [], _ => none
  | (l, r) :: ps, cs =>
    (do
      let rest ← dropLit l cs
      let (run, rest) ← takeRun1 isBalInnerChar rest
      let rest ← dropLit r rest
      pure (l ++ run ++ r, rest)) <|> tryBalanced ps cs

/-- One attempt of the full alternation at the current position. -/
def tryAlt (cs : List Char) : Option (List Char × List Char) :=
  tryLits noncontentLits cs <|>
  (takeRun1 isTokWordChar cs) <|>
  tryBalanced balancedLits cs

/-- The `re.findall` scan.  Fuel is the remaining length: each step consumes
at least one character. -/
def findallAux : Nat → List Char → List String
  | 0, _ => []
  | _ + 1, [] => []
  | fuel + 1, c :: cs =>
    match tryAlt (c :: cs) with
    | some (m, rest) => (⟨m⟩ : String) :: findallAux fuel rest
    | none => findallAux fuel cs

/-- `patt.findall(text)` for the tokenizer pattern. -/
def findall (s : String) : List String := findallAux s.data.length s.data

/-! ### `Interval.tokenize` -/

/-- The `noncontent` list bound in `tokenize`:
`[x.value for x in TAGS_NONCONTENT]`, lowercased when `force_lowercase`. -/
def noncontentValues (force_lowercase : Bool) : List String :=
  if force_lowercase then TAGS_NONCONTENT.map (fun t => strLower t.value)
  else TAGS_NONCONTENT.map (fun t => t.value)

/-- The discard test of `maketoken` (the word is dropped, no Token made). -/
def discardWord (word : String) (noncontent : List String)
    (discard_fillers discard_noncontent discard_incomplete : Bool) : Bool :=
  (discard_incomplete && strEnds word "~")
  || (discard_noncontent && noncontent.contains word)
  || (discard_fillers && strStarts word "(" && !strStarts word "(pp")

/-- Map `maketoken` over the scanned words, keeping surviving tokens and
propagating an unbalanced-tag error. -/
def maketokens (noncontent : List String)
    (discard_fillers discard_noncontent discard_incomplete cleanup : Bool) :
    List String → Except String (List Token)
  | [] => .ok []
  | w :: ws =>
    if discardWord w noncontent discard_fillers discard_noncontent
        discard_incomplete then
      maketokens noncontent discard_fillers discard_noncontent
        discard_incomplete cleanup ws
    else do
      let t ← Token.make w cleanup
      let rest ← maketokens noncontent discard_fillers discard_noncontent
        discard_incomplete cleanup ws
      pure (t :: rest)

/-- `Interval.tokenize(text, …)`.  A raised `UnbalancedTagError` is modelled
as `Except.error` (it aborts the whole call). -/
def tokenize (text : String)
    (force_lowercase discard_fillers discard_noncontent discard_incomplete
      cleanup_token : Bool) : Except String (List Token) :=
  let text := if force_lowercase then strLower text else text
  maketokens (noncontentValues force_lowercase)
    discard_fillers discard_noncontent discard_incomplete cleanup_token
    (findall text)

/-! ### Intervals and the record grammar (`interval.py`, `class Interval`)

The record regex is
`intervals \[(?P<index>\d+)\]\:\s+xmin\s+=\s+(?P<xmin>(\d+\.)?\d+)\s+xmax\s+=\s+(?P<xmax>(\d+\.)?\d+)\s+text\s+=\s+\"(?P<text>.*)\"`.
It is compiled here into explicit combinators.  `.` does not match a newline,
and the greedy `.*\"` tail takes everything up to the *last* `"` on the
current line.  Python `float` on a matched `(\d+\.)?\d+` literal is modelled
exactly as a rational. -/

structure Interval where
  index : Nat
  xmin : ℚ
  xmax : ℚ
  text : String
  textgrid : Option String
  raw : String
deriving DecidableEq, Repr

/-- `int(s)` for a nonempty digit string. -/
def natVal (cs : List Char) : Nat :=
  cs.foldl (fun a c => 10 * a + (c.toNat - 48)) 0

/-- `float(s)` for a string matched by `(\d+\.)?\d+`, modelled exactly in ℚ.
The characters before the (first) dot are the integer part; the characters
after it are the fractional part. -/
def pyFloat (cs : List Char) : ℚ :=
  let ip := cs.takeWhile (fun c => c ≠ '.')
  let rest := cs.dropWhile (fun c => c ≠ '.')
  if rest.isEmpty then (natVal ip : ℚ)
  else (natVal ip : ℚ) + (natVal rest.tail : ℚ) / (10 : ℚ) ^ rest.tail.length

/-- The four captured groups of one interval record, still as raw text. -/
structure RecFields where
  ix : List Char
  n1 : List Char
  n2 : List Char
  tx : List Char
deriving DecidableEq, Repr

/-- The number component `(\d+\.)?\d+` (followed in the record by `\s+`,
which no digit or `.`-digit continuation can consume). -/
def matchNumber (cs : List Char) : Option (List Char × List Char) :=
  match takeRun1 Char.isDigit cs with
  | none => none
  | some (d1, rest) =>
    if rest.head? = some '.' then
      match takeRun1 Char.isDigit rest.tail with
      | some (d2, rest3) => some (d1 ++ '.' :: d2, rest3)
      | none => some (d1, rest)
    else some (d1, rest)

/-- The greedy `\"(?P<text>.*)\"` tail: after the opening quote, the captured
text extends to the last `"` of the current line (the line being
`cs.takeWhile (· ≠ '\n')`); fails when that quote is missing.  Returns the
capture and the remainder after the closing quote. -/
def quotedTail (cs : List Char) : Option (List Char × List Char) :=
  match ((cs.takeWhile (fun c => c ≠ '\n')).reverse).dropWhile
      (fun c => c ≠ '"') with
  | [] => none
  | _ :: before =>
    some (before.reverse,
      (((cs.takeWhile (fun c => c ≠ '\n')).reverse).takeWhile
          (fun c => c ≠ '"')).reverse
        ++ cs.dropWhile (fun c => c ≠ '\n'))

/-- `intervals \[(\d+)\]\:` — the record header; returns the captured index
digits and the remainder. -/
def matchHeader (cs : List Char) : Option (List Char × List Char) :=
  (dropLit "intervals [".data cs).bind fun a =>
  (takeRun1 Char.isDigit a).bind fun p =>
  (dropLit "]:".data p.2).map fun b => (p.1, b)

/-- `\s+<key>\s+=\s+` — the field-name segment before each captured value. -/
def matchKeyEq (key : List Char) (cs : List Char) : Option (List Char) :=
  (takeRun1 isWs cs).bind fun p1 =>
  (dropLit key p1.2).bind fun a =>
  (takeRun1 isWs a).bind fun p2 =>
  (dropLit "=".data p2.2).bind fun b =>
  (takeRun1 isWs b).map fun p3 => p3.2

/-- Match one interval record at the current position (the shared body of
`interval_pattern` and `interval_grouped_pattern`).  Returns the captured
fields and the remainder after the closing quote. -/
def recordMatch (cs : List Char) : Option (RecFields × List Char) :=
  (matchHeader cs).bind fun h =>
  (matchKeyEq "xmin".data h.2).bind fun a =>
  (matchNumber a).bind fun pn1 =>
  (matchKeyEq "xmax".data pn1.2).bind fun b =>
  (matchNumber b).bind fun pn2 =>
  (matchKeyEq "text".data pn2.2).bind fun c =>
  (dropLit "\"".data c).bind fun d =>
  (quotedTail d).map fun pt =>
  ({ ix := h.1, n1 := pn1.1, n2 := pn2.1, tx := pt.1 }, pt.2)

/-- `Interval.__init__` on the captured groups (with `int`/`float`
conversions) plus the `raw`/`textgrid` bookkeeping. -/
def Interval.ofFields (f : RecFields) (raw : String) (tg : Option String) :
    Interval :=
  { index := natVal f.ix, xmin := pyFloat f.n1, xmax := pyFloat f.n2,
    text := ⟨f.tx⟩, textgrid := tg, raw := raw }

/-- `Interval.from_text(raw, textgrid)` : `interval_pattern.match(raw.strip())`
then `__init__`; `None` models the raised `ValueError('bad interval
format')`. -/
def Interval.from_text (raw : String) (tg : Option String) : Option Interval :=
  (recordMatch (pyStrip raw.data)).map (fun m => Interval.ofFields m.1 raw tg)

/-! ### `Conversation.generate_intervals` and the grouped pattern -/

/-- Greedy `(record)+` at the current position: one or more back-to-back
record matches.  As with Python's repeated capture group, the captured value
is the *last* repetition; returns that last matched record substring and the
remainder. -/
def groupedRun : Nat → List Char → Option (List Char × List Char)
  | 0, _ => none
  | fuel + 1, cs =>
    match recordMatch cs with
    | none => none
    | some (_, rest) =>
      let matched := cs.take (cs.length - rest.length)
      match groupedRun fuel rest with
      | some (last, rest') => some (last, rest')
      | none => some (matched, rest)

/-- `interval_grouped_pattern.findall(rawtext)` : scan left to right, at each
position try `(record)+`; each match contributes its last repetition
(`for ivtext, *_ in repatt.findall(rawtext)`). -/
def groupedFindallAux : Nat → List Char → List (List Char)
  | 0, _ => []
  | _ + 1, [] => []
  | fuel + 1, c :: cs =>
    match groupedRun (fuel + 1) (c :: cs) with
    | some (last, rest) => last :: groupedFindallAux fuel rest
    | none => groupedFindallAux fuel cs

def groupedFindall (cs : List Char) : List (List Char) :=
  groupedFindallAux cs.length cs

/-- An item yielded by the `generate_intervals` generator: an `Interval`, or
the final sentinel value `False`. -/
inductive GenItem where
  | interval (iv : Interval)
  | exhausted
deriving DecidableEq, Repr

/-- `Conversation.generate_intervals`, given the already-decoded text of one
TextGrid file (file opening/decoding is out of core scope): every grouped
match is re-parsed with `Interval.from_text`, and `False` is yielded last.
An exception from `from_text` is modelled as `Except.error`. -/
def generate_intervals (rawtext : String) (tg : Option String) :
    Except String (List GenItem) := do
  let ivs ← (groupedFindall rawtext.data).mapM (fun b =>
    match Interval.from_text ⟨b⟩ tg with
    | some iv => Except.ok iv
    | none => Except.error "bad interval format")
  pure (ivs.map GenItem.interval ++ [GenItem.exhausted])

/-! ### `Conversation.linearize`

The two generators each yield their intervals in file order and then the
sentinel `False`; `linearize` holds one pending item per generator and never
advances a generator past its sentinel.  Its yields are therefore a function
of the two interval lists.  Every exit path of the Python generator executes
`raise StopIteration` inside the generator body (both when the two pending
items are `False` at the top of the loop, and after draining the surviving
generator); the second component records that fact. -/

inductive TermMode where
  | raisedStopIteration
  | cleanReturn
deriving DecidableEq, Repr

/-- The yields of `Conversation.linearize` together with how the generator
body terminates. -/
def linearizeRun : List Interval → List Interval → List Interval × TermMode
  | [], [] => ([], .raisedStopIteration)
  | [], y :: ys => (y :: ys, .raisedStopIteration)
  | x :: xs, [] => (x :: xs, .raisedStopIteration)
  | x :: xs, y :: ys =>
    if x.xmin ≤ y.xmin then
      let r := linearizeRun xs (y :: ys)
      (x :: r.1, r.2)
    else
      let r := linearizeRun (x :: xs) ys
      (y :: r.1, r.2)
termination_by xs ys => xs.length + ys.length

/-- The sequence of intervals yielded by `Conversation.linearize`. -/
def linearize (xs ys : List Interval) : List Interval :=
  (linearizeRun xs ys).1

/-! ### Concrete inputs and spec-side reference definitions used by the
claims -/

/-- Reference definition following the spec's words for claim C3 ("strip the
tag's opening delimiter from the working text only when the tag is a
Balanced-category tag; leave Clitic and unmatched-tag text untouched"), to be
compared with the source's `stripOpener`. -/
def specC3_stripOpener (s : String) (tag : Option Tag) : String :=
  match tag with
  | none => s
  | some t =>
    if TAGS_BALANCED.contains t then strReplace s (strLower (anchorTag t)) ""
    else s

/-- A transcript block whose quoted-text segment has no closing quote. -/
def unterminatedBlock : String :=
  "intervals [1]: xmin = 0.5 xmax = 1.0 text = \"oops"

/-- A well-formed record followed (on a later line) by a record whose quoted
text is unterminated. -/
def mixedBlocks : String :=
  "intervals [1]: xmin = 0.5 xmax = 1.0 text = \"ok\"\nintervals [2]: xmin = 2.0 xmax = 3.0 text = \"oops"

/-- A record block whose `xmin` literal exceeds its `xmax` literal. -/
def invertedBlock : String :=
  "intervals [1]: xmin = 5.0 xmax = 1.0 text = \"a\""

/-- An interval carrying only a start time, for the C1 merge scenario. -/
def atTime (n : Nat) (a : ℚ) : Interval :=
  { index := n, xmin := a, xmax := a, text := "", textgrid := none, raw := "" }

/-- Producer A of the spec's concrete merge scenario: xmin `[0.0, 2.0, 5.0]`. -/
def mergeExA : List Interval := [atTime 1 0, atTime 2 2, atTime 3 5]

/-- Producer B of the spec's concrete merge scenario: xmin `[1.0, 1.5, 6.0]`. -/
def mergeExB : List Interval := [atTime 1 1, atTime 2 (3/2), atTime 3 6]

/-! ### Decimal literals of the record grammar, for the C6 round-trip -/

/-- The ten digit characters, indexed. -/
def digitChar (d : Fin 10) : Char :=
  List.get ['0', '1', '2', '3', '4', '5', '6', '7', '8', '9'] ⟨d.val, d.isLt⟩

/-- Value of a digit string, most significant first (accumulator form). -/
def digitsValAux (acc : Nat) : List (Fin 10) → Nat
  | [] => acc
  | d :: ds => digitsValAux (10 * acc + d.val) ds

/-- Value of a digit string, most significant first. -/
def digitsVal (ds : List (Fin 10)) : Nat := digitsValAux 0 ds

/-- A decimal literal of the grammar, `(\d+\.)?\d+` : an integer digit string
and an optional fractional digit string. -/
structure DecLit where
  ip : List (Fin 10)
  fp : Option (List (Fin 10))

/-- Well-formedness: both digit strings are nonempty. -/
def DecLit.wf (d : DecLit) : Prop := d.ip ≠ [] ∧ d.fp ≠ some []

/-- The literal's source text. -/
def DecLit.render (d : DecLit) : List Char :=
  d.ip.map digitChar ++
    (match d.fp with
     | none => []
     | some f => '.' :: f.map digitChar)

/-- The literal's numeric value. -/
def DecLit.val (d : DecLit) : ℚ :=
  (digitsVal d.ip : ℚ) +
    (match d.fp with
     | none => 0
     | some f => (digitsVal f : ℚ) / (10 : ℚ) ^ f.length)

/-- An interval-record text block built from its four source components,
with single spaces as the separators. -/
def mkBlock (ix : List (Fin 10)) (d1 d2 : DecLit) (t : List Char) : List Char :=
  "intervals [".data ++ ix.map digitChar ++
  "]: xmin = ".data ++ d1.render ++
  " xmax = ".data ++ d2.render ++
  " text = \"".data ++ t ++ ['"']

/-! ## Theorems -/

/-- Bridge: the balance validation fires exactly when some registered
balanced pair has exactly one delimiter present. -/
theorem hasUnbalancedTags_iff (s : String) :
    hasUnbalancedTags s = true ↔
      ∃ p ∈ Token.balanced_pairs,
        (p.1.data <:+: s.data ∧ ¬ p.2.data <:+: s.data) ∨
        (¬ p.1.data <:+: s.data ∧ p.2.data <:+: s.data) := by
  unfold hasUnbalancedTags
  rw [List.any_eq_true]
  constructor
  · rintro ⟨p, hp, hne⟩
    refine ⟨p, hp, ?_⟩
    by_cases h1 : p.1.data <:+: s.data <;> by_cases h2 : p.2.data <:+: s.data <;>
      simp [strContains, h1, h2] at hne ⊢
  · rintro ⟨p, hp, hor⟩
    refine ⟨p, hp, ?_⟩
    rcases hor with ⟨h1, h2⟩ | ⟨h1, h2⟩ <;> simp [strContains, h1, h2]

/-- C2: Token construction fails with `UnbalancedTagError` exactly when some
registered balanced pair has exactly one of its delimiters occurring as a
substring of the lowercased raw text; otherwise construction succeeds,
regardless of nesting or ordering of the delimiters. -/
theorem token_unbalanced_iff (raw : String) (cleanup : Bool) :
    (∃ e, Token.make raw cleanup = .error e) ↔
      ∃ p ∈ Token.balanced_pairs,
        (p.1.data <:+: (strLower raw).data ∧ ¬ p.2.data <:+: (strLower raw).data) ∨
        (¬ p.1.data <:+: (strLower raw).data ∧ p.2.data <:+: (strLower raw).data) := by
  rw [← hasUnbalancedTags_iff]
  constructor
  · rintro ⟨e, he⟩
    by_cases h : hasUnbalancedTags (strLower raw)
    · exact h
    · exfalso
      unfold Token.make at he
      rw [if_neg h] at he
      cases cleanup <;> simp at he
  · intro h
    refine ⟨"unbalanced tags in " ++ raw, ?_⟩
    unfold Token.make
    rw [if_pos h]

/-- C3 counterexample: for the raw text `<UNK>` the assigned tag is the
Noncontent tag `UNK`, which is not Balanced, yet the cleanup step erases its
opening delimiter from the working text (leaving `""` instead of the
untouched `"<unk>"` the claim requires), so the token's content becomes `""`
rather than `"unk"`. -/
theorem token_strip_unk_counterexample :
    findTag (strLower "<UNK>") = some Tag.UNK
    ∧ TAGS_BALANCED.contains Tag.UNK = false
    ∧ stripOpener (strLower "<UNK>") (some Tag.UNK) = ""
    ∧ specC3_stripOpener (strLower "<UNK>") (some Tag.UNK) = "<unk>"
    ∧ stripOpener (strLower "<UNK>") (some Tag.UNK)
        ≠ specC3_stripOpener (strLower "<UNK>") (some Tag.UNK)
    ∧ (Token.make "<UNK>" true).map Token.content = .ok ""
    ∧ normWs (wordsSearch (specC3_stripOpener (strLower "<UNK>") (some Tag.UNK)))
        = "unk" := by
  refine ⟨rfl, rfl, rfl, rfl, ?_, rfl, rfl⟩
  decide

/-- C3 amended: the cleanup step strips the assigned tag's opening delimiter
from the working text whenever the tag is *not* a Clitic-category tag — this
includes Noncontent and Structural tags, not only Balanced ones; only Clitic
tags (and the absence of a tag) leave the working text untouched. -/
theorem token_strip_nonclitic (s : String) (t : Tag)
    (h : TAGS_CLITIC.contains t = false) :
    stripOpener s (some t) = strReplace s (strLower (anchorTag t)) ""
    ∧ (∀ t2 : Tag, TAGS_CLITIC.contains t2 = true → stripOpener s (some t2) = s)
    ∧ stripOpener s none = s := by
  refine ⟨?_, ?_, rfl⟩
  · have hmw : t ≠ Tag.MW := by
      rintro rfl
      exact absurd h (by decide)
    simp only [stripOpener]
    rw [if_neg hmw, if_neg (by simpa using h)]
  · intro t2 ht2
    by_cases hmw : t2 = Tag.MW
    · subst hmw; simp [stripOpener]
    · simp only [stripOpener]
      rw [if_neg hmw, if_pos (by simpa using ht2)]

/-- C3 amended, witness at `s = "<unk>"`, `t = Tag.UNK`. -/
theorem token_strip_nonclitic_witness :
    TAGS_CLITIC.contains Tag.UNK = false
    ∧ (stripOpener "<unk>" (some Tag.UNK)
          = strReplace "<unk>" (strLower (anchorTag Tag.UNK)) ""
       ∧ (∀ t2 : Tag, TAGS_CLITIC.contains t2 = true →
            stripOpener "<unk>" (some t2) = "<unk>")
       ∧ stripOpener "<unk>" none = "<unk>") :=
  ⟨by decide, token_strip_nonclitic "<unk>" Tag.UNK (by decide)⟩

/-- C5: with all option flags at their defaults, `"hello (ppb) world"`
tokenizes to exactly `["hello", "world"]` (the `(ppb)` token is discarded as
noncontent); `"(pp hi)"` keeps its single token because the filler starts
with the paralinguistic prefix `(pp`; `"(uh)"` yields no tokens. -/
theorem tokenize_discard_scenarios :
    (tokenize "hello (ppb) world" true true true true true).map
        (fun l => l.map Token.text) = .ok ["hello", "world"]
    ∧ (tokenize "(pp hi)" true true true true true).map
        (fun l => l.map Token.text) = .ok ["(pp hi)"]
    ∧ tokenize "(uh)" true true true true true = .ok [] :=
  ⟨rfl, rfl, rfl⟩

/-- C7 counterexample: on a transcript whose only interval block has an
unterminated quoted-text segment, `generate_intervals` raises nothing and
yields no interval — the block is silently skipped, not surfaced as an
error. -/
theorem unterminated_quote_no_error :
    generate_intervals unterminatedBlock none = .ok [GenItem.exhausted]
    ∧ (generate_intervals unterminatedBlock none).isOk = true :=
  ⟨rfl, rfl⟩

/-- C7 amended: a located block whose quoted-text segment cannot be closed is
not matched by the interval-record search at all; `generate_intervals`
silently skips it (yielding the surrounding well-formed intervals and the
final sentinel, with no error raised). -/
theorem unterminated_quote_skipped :
    ∃ iv, generate_intervals mixedBlocks none
        = .ok [GenItem.interval iv, GenItem.exhausted]
      ∧ iv.index = 1 ∧ iv.text = "ok" :=
  ⟨_, rfl, rfl, rfl⟩

/-- C8: `tokenize` is deterministic — two invocations on the same text with
the same option flags yield structurally equal token sequences: equal
length, and pairwise equal `tag`, `content`, `text` and `raw` fields. -/
theorem tokenize_deterministic (text : String)
    (fl df dn di cu : Bool) (l1 l2 : List Token)
    (h1 : tokenize text fl df dn di cu = .ok l1)
    (h2 : tokenize text fl df dn di cu = .ok l2) :
    l1.length = l2.length ∧ l1 = l2
    ∧ ∀ (i : Fin l1.length) (j : Fin l2.length), i.val = j.val →
        (l1.get i).tag = (l2.get j).tag
        ∧ (l1.get i).content = (l2.get j).content
        ∧ (l1.get i).text = (l2.get j).text
        ∧ (l1.get i).raw = (l2.get j).raw := by
  have hl : l1 = l2 := by
    have h := h1.symm.trans h2
    exact Except.ok.inj h
  subst hl
  refine ⟨rfl, rfl, ?_⟩
  intro i j hij
  have : i = j := Fin.ext hij
  subst this
  exact ⟨rfl, rfl, rfl, rfl⟩

/-- C8 witness at `text = "hello"` with default flags. -/
theorem tokenize_deterministic_witness :
    tokenize "hello" true true true true true
        = .ok [{ tag := none, content := "hello", text := "hello",
                 raw := "hello" }]
    ∧ ([({ tag := none, content := "hello", text := "hello",
           raw := "hello" } : Token)].length
        = [({ tag := none, content := "hello", text := "hello",
              raw := "hello" } : Token)].length
       ∧ [({ tag := none, content := "hello", text := "hello",
             raw := "hello" } : Token)]
          = [({ tag := none, content := "hello", text := "hello",
                raw := "hello" } : Token)]
       ∧ ∀ (i : Fin 1) (j : Fin 1), i.val = j.val →
           (([({ tag := none, content := "hello", text := "hello",
                 raw := "hello" } : Token)]).get i).tag
              = (([({ tag := none, content := "hello", text := "hello",
                      raw := "hello" } : Token)]).get j).tag
           ∧ (([({ tag := none, content := "hello", text := "hello",
                   raw := "hello" } : Token)]).get i).content
              = (([({ tag := none, content := "hello", text := "hello",
                      raw := "hello" } : Token)]).get j).content
           ∧ (([({ tag := none, content := "hello", text := "hello",
                   raw := "hello" } : Token)]).get i).text
              = (([({ tag := none, content := "hello", text := "hello",
                      raw := "hello" } : Token)]).get j).text
           ∧ (([({ tag := none, content := "hello", text := "hello",
                   raw := "hello" } : Token)]).get i).raw
              = (([({ tag := none, content := "hello", text := "hello",
                      raw := "hello" } : Token)]).get j).raw) :=
  ⟨rfl, tokenize_deterministic "hello" true true true true true _ _ rfl rfl⟩

/-- C4 (code evaluation): every execution path of `linearize` terminates by
executing `raise StopIteration` inside the generator body — including the
empty/empty case — while the yielded sequence does drain the surviving
producer in its own order. -/
theorem linearize_raises_stop_iteration (xs ys : List Interval) :
    (linearizeRun xs ys).2 = TermMode.raisedStopIteration
    ∧ linearize xs [] = xs ∧ linearize [] ys = ys
    ∧ (linearizeRun [] []).1 = [] := by
  refine ⟨?_, ?_, ?_, by simp [linearizeRun]⟩
  · induction xs generalizing ys with
    | nil => cases ys <;> simp [linearizeRun]
    | cons x xs ih =>
      induction ys with
      | nil => simp [linearizeRun]
      | cons y ys ihy =>
        by_cases h : x.xmin ≤ y.xmin <;> simp [linearizeRun, h, ih, ihy]
  · cases xs <;> simp [linearize, linearizeRun]
  · cases ys <;> simp [linearize, linearizeRun]

/-- C10: whenever `generate_intervals` runs to completion, its yields are
its parsed intervals followed by the single boolean sentinel `False` as the
final item; when the text contains no interval records, it yields only
`False`. -/
theorem generate_intervals_sentinel (rawtext : String) (tg : Option String)
    (items : List GenItem)
    (h : generate_intervals rawtext tg = .ok items) :
    (∃ ivs : List Interval,
        items = ivs.map GenItem.interval ++ [GenItem.exhausted])
    ∧ items.getLast? = some GenItem.exhausted
    ∧ (groupedFindall rawtext.data = [] → items = [GenItem.exhausted]) := by
  unfold generate_intervals at h
  cases hm : (groupedFindall rawtext.data).mapM (fun b =>
      match Interval.from_text ⟨b⟩ tg with
      | some iv => Except.ok iv
      | none => Except.error "bad interval format") with
  | error e => rw [hm] at h; simp [Bind.bind, Except.bind] at h
  | ok ivs =>
    rw [hm] at h
    simp only [Bind.bind, Except.bind, pure, Except.pure, Except.ok.injEq] at h
    refine ⟨⟨ivs, h.symm⟩, ?_, ?_⟩
    · rw [← h]
      exact List.getLast?_concat _
    · intro hempty
      rw [hempty] at hm
      simp only [List.mapM] at hm
      have : ivs = [] := by
        simpa using (Except.ok.inj hm.symm)
      rw [← h, this]
      rfl

/-- C10 witness at the empty transcript text. -/
theorem generate_intervals_sentinel_witness :
    generate_intervals "" none = .ok [GenItem.exhausted]
    ∧ ((∃ ivs : List Interval,
          [GenItem.exhausted] = ivs.map GenItem.interval ++ [GenItem.exhausted])
       ∧ ([GenItem.exhausted] : List GenItem).getLast? = some GenItem.exhausted
       ∧ (groupedFindall "".data = [] → [GenItem.exhausted] = [GenItem.exhausted])) :=
  ⟨rfl, generate_intervals_sentinel "" none [GenItem.exhausted] rfl⟩

/-! ### The merge lemmas for `Conversation.linearize` -/

theorem linearize_nil_left (ys : List Interval) : linearize [] ys = ys := by
  cases ys <;> simp [linearize, linearizeRun]

theorem linearize_nil_right (xs : List Interval) : linearize xs [] = xs := by
  cases xs <;> simp [linearize, linearizeRun]

theorem linearize_cons_cons (x y : Interval) (xs ys : List Interval) :
    linearize (x :: xs) (y :: ys) =
      if x.xmin ≤ y.xmin then x :: linearize xs (y :: ys)
      else y :: linearize (x :: xs) ys := by
  by_cases h : x.xmin ≤ y.xmin <;> simp [linearize, linearizeRun, h]

/-- The merged yields are a permutation of the two inputs together. -/
theorem linearize_perm (xs ys : List Interval) :
    (linearize xs ys).Perm (xs ++ ys) := by
  induction xs, ys using linearizeRun.induct with
  | case1 => simp [linearize_nil_left]
  | case2 y ys => simp [linearize_nil_left]
  | case3 x xs => simp [linearize_nil_right]
  | case4 x xs y ys h ih =>
    rw [linearize_cons_cons, if_pos h]
    simpa using ih.cons x
  | case5 x xs y ys h ih =>
    rw [linearize_cons_cons, if_neg h]
    exact (ih.cons y).trans List.perm_middle.symm

/-- The first producer's items appear in the merge in their own order. -/
theorem linearize_sublist_left (xs ys : List Interval) :
    xs.Sublist (linearize xs ys) := by
  induction xs, ys using linearizeRun.induct with
  | case1 => simp [linearize_nil_left]
  | case2 y ys => simp [linearize_nil_left]
  | case3 x xs => rw [linearize_nil_right]
  | case4 x xs y ys h ih =>
    rw [linearize_cons_cons, if_pos h]
    exact ih.cons₂ x
  | case5 x xs y ys h ih =>
    rw [linearize_cons_cons, if_neg h]
    exact ih.cons y

/-- The second producer's items appear in the merge in their own order. -/
theorem linearize_sublist_right (xs ys : List Interval) :
    ys.Sublist (linearize xs ys) := by
  induction xs, ys using linearizeRun.induct with
  | case1 => simp [linearize_nil_left]
  | case2 y ys => simp [linearize_nil_left]
  | case3 x xs => rw [linearize_nil_right]; exact List.nil_sublist _
  | case4 x xs y ys h ih =>
    rw [linearize_cons_cons, if_pos h]
    exact ih.cons x
  | case5 x xs y ys h ih =>
    rw [linearize_cons_cons, if_neg h]
    exact ih.cons₂ y

/-- The merge of two sequences that are each non-decreasing in `xmin` is
non-decreasing in `xmin`. -/
theorem linearize_sorted (xs ys : List Interval)
    (hx : List.Pairwise (fun a b => a.xmin ≤ b.xmin) xs)
    (hy : List.Pairwise (fun a b => a.xmin ≤ b.xmin) ys) :
    List.Pairwise (fun a b => a.xmin ≤ b.xmin) (linearize xs ys) := by
  induction xs, ys using linearizeRun.induct with
  | case1 => simp [linearize_nil_left]
  | case2 y ys => simpa [linearize_nil_left] using hy
  | case3 x xs => simpa [linearize_nil_right] using hx
  | case4 x xs y ys h ih =>
    rw [linearize_cons_cons, if_pos h]
    rcases List.pairwise_cons.mp hx with ⟨hxall, hx'⟩
    rcases List.pairwise_cons.mp hy with ⟨hyall, _⟩
    refine List.pairwise_cons.mpr ⟨?_, ih hx' hy⟩
    intro z hz
    rcases List.mem_append.mp ((linearize_perm xs (y :: ys)).mem_iff.mp hz) with
      hzx | hzy
    · exact hxall z hzx
    · rcases List.mem_cons.mp hzy with rfl | hzys
      · exact h
      · exact le_trans h (hyall z hzys)
  | case5 x xs y ys h ih =>
    rw [linearize_cons_cons, if_neg h]
    rcases List.pairwise_cons.mp hx with ⟨hxall, _⟩
    rcases List.pairwise_cons.mp hy with ⟨hyall, hy'⟩
    have hyx : y.xmin ≤ x.xmin := le_of_not_le h
    refine List.pairwise_cons.mpr ⟨?_, ih hx hy'⟩
    intro z hz
    rcases List.mem_append.mp ((linearize_perm (x :: xs) ys).mem_iff.mp hz) with
      hzx | hzy
    · rcases List.mem_cons.mp hzx with rfl | hzxs
      · exact hyx
      · exact le_trans hyx (hxall z hzxs)
    · exact hyall z hzy

/-- C1: for two producers each non-decreasing in `xmin`, `linearize` yields
every element of both inputs exactly once (a permutation of the inputs), in
non-decreasing `xmin` order, preserving each input's relative order among
the elements it contributed; on equal `xmin` the first producer's element is
emitted first; and on the spec's concrete scenario (`[0, 2, 5]` against
`[1, 1.5, 6]`) the merged `xmin` order is `[0, 1, 1.5, 2, 5, 6]`. -/
theorem linearize_merge_spec (xs ys : List Interval)
    (hx : List.Pairwise (fun a b => a.xmin ≤ b.xmin) xs)
    (hy : List.Pairwise (fun a b => a.xmin ≤ b.xmin) ys) :
    (linearize xs ys).Perm (xs ++ ys)
    ∧ List.Pairwise (fun a b => a.xmin ≤ b.xmin) (linearize xs ys)
    ∧ xs.Sublist (linearize xs ys)
    ∧ ys.Sublist (linearize xs ys)
    ∧ (∀ (x y : Interval) (xs' ys' : List Interval), x.xmin = y.xmin →
        linearize (x :: xs') (y :: ys') = x :: linearize xs' (y :: ys'))
    ∧ (linearize mergeExA mergeExB).map Interval.xmin
        = [0, 1, 3/2, 2, 5, 6] := by
  refine ⟨linearize_perm xs ys, linearize_sorted xs ys hx hy,
    linearize_sublist_left xs ys, linearize_sublist_right xs ys, ?_, ?_⟩
  · intro x y xs' ys' hxy
    rw [linearize_cons_cons, if_pos (le_of_eq hxy)]
  · norm_num [mergeExA, mergeExB, atTime, linearize_cons_cons,
      linearize_nil_left, linearize_nil_right]

/-- C1 witness at the spec's concrete merge scenario. -/
theorem linearize_merge_spec_witness :
    List.Pairwise (fun a b : Interval => a.xmin ≤ b.xmin) mergeExA
    ∧ List.Pairwise (fun a b : Interval => a.xmin ≤ b.xmin) mergeExB
    ∧ ((linearize mergeExA mergeExB).Perm (mergeExA ++ mergeExB)
       ∧ List.Pairwise (fun a b => a.xmin ≤ b.xmin) (linearize mergeExA mergeExB)
       ∧ mergeExA.Sublist (linearize mergeExA mergeExB)
       ∧ mergeExB.Sublist (linearize mergeExA mergeExB)
       ∧ (∀ (x y : Interval) (xs' ys' : List Interval), x.xmin = y.xmin →
           linearize (x :: xs') (y :: ys') = x :: linearize xs' (y :: ys'))
       ∧ (linearize mergeExA mergeExB).map Interval.xmin
           = [0, 1, 3/2, 2, 5, 6]) :=
  ⟨by norm_num [mergeExA, atTime, List.pairwise_cons],
   by norm_num [mergeExB, atTime, List.pairwise_cons],
   linearize_merge_spec mergeExA mergeExB
     (by norm_num [mergeExA, atTime, List.pairwise_cons])
     (by norm_num [mergeExB, atTime, List.pairwise_cons])⟩

/-- C9 counterexample: `Interval.from_text` accepts the block
`intervals [1]: xmin = 5.0 xmax = 1.0 text = "a"` and produces an Interval
with `xmin = 5 > 1 = xmax`; the claimed invariant `xmin ≤ xmax` is not
enforced at construction. -/
theorem interval_xmin_gt_xmax_counterexample :
    (Interval.from_text invertedBlock none).isSome = true
    ∧ (Interval.from_text invertedBlock none).map Interval.xmin = some 5
    ∧ (Interval.from_text invertedBlock none).map Interval.xmax = some 1
    ∧ ¬ ((5 : ℚ) ≤ (1 : ℚ)) := by
  have hft : Interval.from_text invertedBlock none
      = some (Interval.ofFields
          { ix := "1".data, n1 := "5.0".data, n2 := "1.0".data,
            tx := "a".data }
          invertedBlock none) := rfl
  have h5 : pyFloat "5.0".data
      = ((5 : ℕ) : ℚ) + ((0 : ℕ) : ℚ) / (10 : ℚ) ^ (1 : ℕ) := rfl
  have h1 : pyFloat "1.0".data
      = ((1 : ℕ) : ℚ) + ((0 : ℕ) : ℚ) / (10 : ℚ) ^ (1 : ℕ) := rfl
  refine ⟨by rw [hft]; rfl, ?_, ?_, by norm_num⟩
  · rw [hft]
    simp only [Option.map_some, Interval.ofFields, h5]
    norm_num
  · rw [hft]
    simp only [Option.map_some, Interval.ofFields, h1]
    norm_num

/-- C9 amended: the Interval constructor performs no validation relating
`xmin` and `xmax` — the given bounds are stored unchecked, and
`Interval.from_text` accepts a block whose `xmin` literal exceeds its `xmax`
literal. -/
theorem interval_no_order_validation (ix : Nat) (a b : ℚ) (tx : String)
    (tg : Option String) (raw : String) :
    (Interval.mk ix a b tx tg raw).xmin = a
    ∧ (Interval.mk ix a b tx tg raw).xmax = b
    ∧ (Interval.from_text invertedBlock none).isSome = true :=
  ⟨rfl, rfl, rfl⟩

/-! ### Helper lemmas for the C6 parsing round-trip -/

theorem dropLit_append (l r : List Char) : dropLit l (l ++ r) = some r := by
  induction l with
  | nil => rfl
  | cons c cs ih => simp [dropLit, ih]

theorem takeWhile_all_append {p : Char → Bool} :
    ∀ {ds : List Char}, (∀ c ∈ ds, p c = true) →
      ∀ r, (ds ++ r).takeWhile p = ds ++ r.takeWhile p := by
  intro ds
  induction ds with
  | nil => intro _ r; rfl
  | cons c cs ih =>
    intro h r
    have hc : p c = true := h c (List.mem_cons_self c cs)
    simp only [List.cons_append, List.takeWhile_cons, hc, if_true]
    rw [ih (fun d hd => h d (List.mem_cons_of_mem c hd)) r]

theorem dropWhile_all_append {p : Char → Bool} :
    ∀ {ds : List Char}, (∀ c ∈ ds, p c = true) →
      ∀ r, (ds ++ r).dropWhile p = r.dropWhile p := by
  intro ds
  induction ds with
  | nil => intro _ r; rfl
  | cons c cs ih =>
    intro h r
    have hc : p c = true := h c (List.mem_cons_self c cs)
    simp only [List.cons_append, List.dropWhile_cons, hc, if_true]
    exact ih (fun d hd => h d (List.mem_cons_of_mem c hd)) r

theorem takeRun1_append {p : Char → Bool} {ds : List Char} (q : Char)
    (r : List Char) (hne : ds ≠ []) (hall : ∀ c ∈ ds, p c = true)
    (hq : p q = false) :
    takeRun1 p (ds ++ q :: r) = some (ds, q :: r) := by
  have ht : (ds ++ q :: r).takeWhile p = ds := by
    rw [takeWhile_all_append hall]
    simp [List.takeWhile_cons, hq]
  have hd : (ds ++ q :: r).dropWhile p = q :: r := by
    rw [dropWhile_all_append hall]
    simp [List.dropWhile_cons, hq]
  unfold takeRun1
  rw [ht, hd]
  cases ds with
  | nil => exact absurd rfl hne
  | cons d ds' => rfl

theorem takeRun1_space (Y : List Char) (k : Char) (hY : Y.head? = some k)
    (hk : isWs k = false) : takeRun1 isWs (' ' :: Y) = some ([' '], Y) := by
  cases Y with
  | nil => simp at hY
  | cons a as =>
    have ha : a = k := by simpa using hY
    subst ha
    have hsp : isWs ' ' = true := rfl
    have ht : List.takeWhile isWs (' ' :: a :: as) = [' '] := by
      simp [List.takeWhile_cons, hsp, hk]
    have hd : List.dropWhile isWs (' ' :: a :: as) = a :: as := by
      simp [List.dropWhile_cons, hsp, hk]
    unfold takeRun1
    rw [ht, hd]
    rfl

theorem isDigit_digitChar : ∀ d : Fin 10, Char.isDigit (digitChar d) = true := by
  decide

theorem not_isWs_digitChar : ∀ d : Fin 10, isWs (digitChar d) = false := by
  decide

theorem digitChar_ne_dot : ∀ d : Fin 10, (decide (digitChar d ≠ '.')) = true := by
  decide

theorem toNat_digitChar : ∀ d : Fin 10, (digitChar d).toNat - 48 = d.val := by
  decide

theorem all_map_digitChar {p : Char → Bool} (hp : ∀ d : Fin 10, p (digitChar d) = true)
    (ds : List (Fin 10)) : ∀ c ∈ ds.map digitChar, p c = true := by
  intro c hc
  rcases List.mem_map.mp hc with ⟨d, _, rfl⟩
  exact hp d

theorem map_digitChar_ne_nil {ds : List (Fin 10)} (h : ds ≠ []) :
    ds.map digitChar ≠ [] := by
  cases ds with
  | nil => exact absurd rfl h
  | cons d ds' => simp

theorem natVal_map_digitChar (ds : List (Fin 10)) :
    natVal (ds.map digitChar) = digitsVal ds := by
  show List.foldl _ 0 _ = digitsValAux 0 ds
  generalize 0 = acc
  induction ds generalizing acc with
  | nil => rfl
  | cons d ds' ih =>
    simp only [List.map_cons, List.foldl_cons, digitsValAux, toNat_digitChar d]
    exact ih _

theorem matchNumber_render (d : DecLit) (hwf : d.wf) (q : Char)
    (r : List Char) (hq1 : q.isDigit = false) (hq2 : q ≠ '.') :
    matchNumber (d.render ++ q :: r) = some (d.render, q :: r) := by
  rcases hwf with ⟨hip, hfp⟩
  unfold DecLit.render matchNumber
  cases hf : d.fp with
  | none =>
    simp only [List.append_nil]
    rw [takeRun1_append q r (map_digitChar_ne_nil hip)
      (all_map_digitChar isDigit_digitChar d.ip) hq1]
    simp only [List.head?_cons, List.tail_cons, Option.some.injEq]
    rw [if_neg hq2]
  | some f =>
    have hfne : f ≠ [] := by
      intro h; exact hfp (by rw [hf, h])
    rw [List.append_assoc]
    simp only [List.cons_append]
    rw [takeRun1_append '.' (f.map digitChar ++ q :: r)
      (map_digitChar_ne_nil hip) (all_map_digitChar isDigit_digitChar d.ip)
      (by decide)]
    simp only [List.head?_cons, List.tail_cons, if_pos]
    rw [takeRun1_append q r (map_digitChar_ne_nil hfne)
      (all_map_digitChar isDigit_digitChar f) hq1]

theorem pyFloat_render (d : DecLit) : pyFloat d.render = d.val := by
  have hall : ∀ c ∈ d.ip.map digitChar, (decide (c ≠ '.')) = true :=
    all_map_digitChar digitChar_ne_dot d.ip
  unfold DecLit.render pyFloat DecLit.val
  cases hf : d.fp with
  | none =>
    simp only [List.append_nil]
    have ht : (d.ip.map digitChar).takeWhile (fun c => decide (c ≠ '.'))
        = d.ip.map digitChar := by
      have := takeWhile_all_append hall []
      simpa using this
    have hd : (d.ip.map digitChar).dropWhile (fun c => decide (c ≠ '.')) = [] := by
      have := dropWhile_all_append hall []
      simpa using this
    rw [ht, hd]
    simp [natVal_map_digitChar]
  | some f =>
    rw [takeWhile_all_append hall, dropWhile_all_append hall]
    have h1 : List.takeWhile (fun c => decide (c ≠ '.'))
        ('.' :: f.map digitChar) = [] := by
      simp [List.takeWhile_cons]
    have h2 : List.dropWhile (fun c => decide (c ≠ '.'))
        ('.' :: f.map digitChar) = '.' :: f.map digitChar := by
      simp [List.dropWhile_cons]
    rw [h1, h2]
    simp only [List.append_nil, List.isEmpty_cons, List.tail_cons]
    rw [natVal_map_digitChar, natVal_map_digitChar]
    simp

theorem dropWhile_eq_self_of_head {p : Char → Bool} {cs : List Char}
    (h : ∀ c, cs.head? = some c → p c = false) : cs.dropWhile p = cs := by
  cases cs with
  | nil => rfl
  | cons c cs' => simp [List.dropWhile_cons, h c rfl]

theorem pyStrip_eq_self {cs : List Char}
    (h1 : cs.dropWhile isWs = cs)
    (h2 : cs.reverse.dropWhile isWs = cs.reverse) :
    pyStrip cs = cs := by
  unfold pyStrip
  rw [h1, h2, List.reverse_reverse]

theorem pyStrip_mkBlock (ix : List (Fin 10)) (d1 d2 : DecLit) (t : List Char) :
    pyStrip (mkBlock ix d1 d2 t) = mkBlock ix d1 d2 t := by
  apply pyStrip_eq_self
  · apply dropWhile_eq_self_of_head
    intro c hc
    have hh : (mkBlock ix d1 d2 t).head? = some 'i' := rfl
    rw [hh] at hc
    cases Option.some.inj hc
    rfl
  · apply dropWhile_eq_self_of_head
    intro c hc
    rw [List.head?_reverse] at hc
    have hl : (mkBlock ix d1 d2 t).getLast? = some '"' := by
      simp only [mkBlock]
      exact List.getLast?_concat _
    rw [hl] at hc
    cases Option.some.inj hc
    rfl

theorem matchKeyEq_gen (k : Char) (ks X : List Char) (c : Char)
    (hk : isWs k = false) (hc : isWs c = false) :
    matchKeyEq (k :: ks) (' ' :: ((k :: ks) ++ ' ' :: '=' :: ' ' :: c :: X))
      = some (c :: X) := by
  unfold matchKeyEq
  rw [takeRun1_space ((k :: ks) ++ ' ' :: '=' :: ' ' :: c :: X) k rfl hk]
  simp only [Option.some_bind]
  rw [dropLit_append]
  simp only [Option.some_bind]
  rw [takeRun1_space ('=' :: ' ' :: c :: X) '=' rfl (by rfl)]
  simp only [Option.some_bind]
  have h4 : dropLit "=".data ('=' :: ' ' :: c :: X) = some (' ' :: c :: X) := rfl
  rw [h4]
  simp only [Option.some_bind]
  rw [takeRun1_space (c :: X) c rfl hc]
  rfl

theorem quotedTail_append (t : List Char) (ht : '\n' ∉ t) :
    quotedTail (t ++ ['"']) = some (t, []) := by
  have hall : ∀ c ∈ t, (decide (c ≠ '\n')) = true := by
    intro c hc
    simp only [decide_eq_true_eq, ne_eq]
    intro h; subst h; exact ht hc
  have h1 : (t ++ ['"']).takeWhile (fun c => decide (c ≠ '\n')) = t ++ ['"'] := by
    rw [takeWhile_all_append hall]
    rfl
  have h2 : (t ++ ['"']).dropWhile (fun c => decide (c ≠ '\n')) = [] := by
    rw [dropWhile_all_append hall]
    rfl
  have hrev : (t ++ ['"']).reverse = '"' :: t.reverse := by
    rw [List.reverse_append]
    rfl
  have h3 : List.dropWhile (fun c => decide (c ≠ '"')) ('"' :: t.reverse)
      = '"' :: t.reverse := by
    simp [List.dropWhile_cons]
  have h4 : List.takeWhile (fun c => decide (c ≠ '"')) ('"' :: t.reverse)
      = [] := by
    simp [List.takeWhile_cons]
  unfold quotedTail
  rw [h1, h2, hrev, h3, h4]
  simp

/-! ### The C6 round-trip: `Interval.from_text` on a constructed block -/

theorem matchKeyEq_xmin (c : Char) (X : List Char) (hc : isWs c = false) :
    matchKeyEq "xmin".data
      (' ' :: 'x' :: 'm' :: 'i' :: 'n' :: ' ' :: '=' :: ' ' :: (c :: X)) = some (c :: X) :=
  matchKeyEq_gen 'x' "min".data X c rfl hc

theorem matchKeyEq_xmax (c : Char) (X : List Char) (hc : isWs c = false) :
    matchKeyEq "xmax".data
      (' ' :: 'x' :: 'm' :: 'a' :: 'x' :: ' ' :: '=' :: ' ' :: (c :: X)) = some (c :: X) :=
  matchKeyEq_gen 'x' "max".data X c rfl hc

theorem matchKeyEq_text (c : Char) (X : List Char) (hc : isWs c = false) :
    matchKeyEq "text".data
      (' ' :: 't' :: 'e' :: 'x' :: 't' :: ' ' :: '=' :: ' ' :: (c :: X)) = some (c :: X) :=
  matchKeyEq_gen 't' "ext".data X c rfl hc

theorem recordMatch_mkBlock (ix : List (Fin 10)) (d1 d2 : DecLit)
    (t : List Char) (hix : ix ≠ []) (h1 : d1.wf) (h2 : d2.wf)
    (ht : '\n' ∉ t) :
    recordMatch (mkBlock ix d1 d2 t)
      = some ({ ix := ix.map digitChar, n1 := d1.render, n2 := d2.render,
                tx := t }, []) := by
  obtain ⟨p0, r1tail, hrd1⟩ : ∃ p0 r1tail,
      d1.render = digitChar p0 :: r1tail := by
    rcases h1 with ⟨hne, -⟩
    cases hd : d1.ip with
    | nil => exact absurd hd hne
    | cons a as =>
      refine ⟨a, (DecLit.render d1).tail, ?_⟩
      unfold DecLit.render
      rw [hd]
      rfl
  obtain ⟨q0, r2tail, hrd2⟩ : ∃ q0 r2tail,
      d2.render = digitChar q0 :: r2tail := by
    rcases h2 with ⟨hne, -⟩
    cases hd : d2.ip with
    | nil => exact absurd hd hne
    | cons a as =>
      refine ⟨a, (DecLit.render d2).tail, ?_⟩
      unfold DecLit.render
      rw [hd]
      rfl
  have e0 : mkBlock ix d1 d2 t
      = 'i' :: 'n' :: 't' :: 'e' :: 'r' :: 'v' :: 'a' :: 'l' :: 's' :: ' ' :: '[' :: (ix.map digitChar ++
          (']' :: ':' :: (' ' :: 'x' :: 'm' :: 'i' :: 'n' :: ' ' :: '=' :: ' ' :: (digitChar p0 ::
            (r1tail ++ (' ' :: 'x' :: 'm' :: 'a' :: 'x' :: ' ' :: '=' :: ' ' :: (digitChar q0 ::
              (r2tail ++ (' ' :: 't' :: 'e' :: 'x' :: 't' :: ' ' :: '=' :: ' ' :: '"' ::
                (t ++ ['"'])))))))))) := by
    unfold mkBlock
    rw [hrd1, hrd2]
    simp only [List.cons_append, List.append_assoc]
    rfl
  unfold recordMatch matchHeader
  rw [e0]
  have hA : ∀ X : List Char,
      dropLit "intervals [".data
        ('i' :: 'n' :: 't' :: 'e' :: 'r' :: 'v' :: 'a' :: 'l' :: 's' :: ' ' :: '[' ::X) = some X :=
    fun _ => rfl
  rw [hA]
  simp only [Option.some_bind]
  rw [takeRun1_append ']' _ (map_digitChar_ne_nil hix)
    (all_map_digitChar isDigit_digitChar _) (by rfl)]
  simp only [Option.some_bind]
  have hC : ∀ X : List Char, dropLit "]:".data (']' :: ':' :: X) = some X :=
    fun _ => rfl
  rw [hC]
  simp only [Option.map_some', Option.some_bind]
  rw [matchKeyEq_xmin (digitChar p0) _ (not_isWs_digitChar p0)]
  simp only [Option.some_bind]
  -- the xmin number
  have hm1 : matchNumber (digitChar p0 ::
      (r1tail ++ (' ' :: 'x' :: 'm' :: 'a' :: 'x' :: ' ' :: '=' :: ' ' :: (digitChar q0 ::
        (r2tail ++ (' ' :: 't' :: 'e' :: 'x' :: 't' :: ' ' :: '=' :: ' ' :: '"' ::
          (t ++ ['"'])))))))
      = some (digitChar p0 :: r1tail,
          ' ' :: 'x' :: 'm' :: 'a' :: 'x' :: ' ' :: '=' :: ' ' :: (digitChar q0 ::
          (r2tail ++ (' ' :: 't' :: 'e' :: 'x' :: 't' :: ' ' :: '=' :: ' ' :: '"' ::
            (t ++ ['"']))))) := by
    have hbase := matchNumber_render d1 h1 ' '
      ('x' :: 'm' :: 'a' :: 'x' :: ' ' :: '=' :: ' ' :: (digitChar q0 ::
        (r2tail ++ (' ' :: 't' :: 'e' :: 'x' :: 't' :: ' ' :: '=' :: ' ' :: '"' ::
          (t ++ ['"'])))))
      (by rfl) (by decide)
    rw [hrd1] at hbase
    simpa only [List.cons_append, List.append_assoc] using hbase
  rw [hm1]
  simp only [Option.some_bind]
  rw [matchKeyEq_xmax (digitChar q0) _ (not_isWs_digitChar q0)]
  simp only [Option.some_bind]
  -- the xmax number
  have hm2 : matchNumber (digitChar q0 ::
      (r2tail ++ (' ' :: 't' :: 'e' :: 'x' :: 't' :: ' ' :: '=' :: ' ' :: '"' :: (t ++ ['"']))))
      = some (digitChar q0 :: r2tail,
          ' ' :: 't' :: 'e' :: 'x' :: 't' :: ' ' :: '=' :: ' ' :: '"' :: (t ++ ['"'])) := by
    have hbase := matchNumber_render d2 h2 ' '
      ('t' :: 'e' :: 'x' :: 't' :: ' ' :: '=' :: ' ' :: '"' :: (t ++ ['"']))
      (by rfl) (by decide)
    rw [hrd2] at hbase
    simpa only [List.cons_append, List.append_assoc] using hbase
  rw [hm2]
  simp only [Option.some_bind]
  rw [matchKeyEq_text '"' _ (by rfl)]
  simp only [Option.some_bind]
  have hI : ∀ X : List Char, dropLit "\"".data ('"' :: X) = some X :=
    fun _ => rfl
  rw [hI]
  simp only [Option.some_bind]
  rw [quotedTail_append t ht]
  rw [hrd1, hrd2]
  simp only [Option.map_some']


/-- C6: for every text block built from the interval-record grammar
components (index digit string N, decimal literals F1 and F2, quoted text T
free of newlines), `Interval.from_text` produces an Interval whose `index`
is the integer value of N, whose `xmin`/`xmax` are the numeric values of F1
and F2, whose `text` is exactly T, and whose `raw` is the original block. -/
theorem from_text_roundtrip (ix : List (Fin 10)) (d1 d2 : DecLit)
    (t : List Char) (hix : ix ≠ []) (h1 : d1.wf) (h2 : d2.wf)
    (ht : '\n' ∉ t) :
    Interval.from_text ⟨mkBlock ix d1 d2 t⟩ none
      = some { index := digitsVal ix, xmin := d1.val, xmax := d2.val,
               text := ⟨t⟩, textgrid := none,
               raw := ⟨mkBlock ix d1 d2 t⟩ } := by
  unfold Interval.from_text
  have hdata : (String.mk (mkBlock ix d1 d2 t)).data = mkBlock ix d1 d2 t := rfl
  rw [hdata, pyStrip_mkBlock, recordMatch_mkBlock ix d1 d2 t hix h1 h2 ht]
  simp only [Option.map_some', Option.some.injEq]
  unfold Interval.ofFields
  rw [natVal_map_digitChar, pyFloat_render d1, pyFloat_render d2]

/-- C6 witness at the block
`intervals [1]: xmin = 0.5 xmax = 1.25 text = "hello world"`. -/
theorem from_text_roundtrip_witness :
    (([1] : List (Fin 10)) ≠ []
     ∧ ((DecLit.mk [0] (some [5])).ip ≠ [] ∧ (DecLit.mk [0] (some [5])).fp ≠ some [])
     ∧ ((DecLit.mk [1] (some [2, 5])).ip ≠ [] ∧ (DecLit.mk [1] (some [2, 5])).fp ≠ some [])
     ∧ '\n' ∉ "hello world".data)
    ∧ Interval.from_text
        ⟨mkBlock [1] (DecLit.mk [0] (some [5])) (DecLit.mk [1] (some [2, 5]))
          "hello world".data⟩ none
      = some { index := digitsVal [1],
               xmin := (DecLit.mk [0] (some [5])).val,
               xmax := (DecLit.mk [1] (some [2, 5])).val,
               text := ⟨"hello world".data⟩, textgrid := none,
               raw := ⟨mkBlock [1] (DecLit.mk [0] (some [5]))
                 (DecLit.mk [1] (some [2, 5])) "hello world".data⟩ } :=
  ⟨⟨by decide, ⟨by decide, by decide⟩, ⟨by decide, by decide⟩, by decide⟩,
   from_text_roundtrip [1] (DecLit.mk [0] (some [5]))
     (DecLit.mk [1] (some [2, 5])) "hello world".data
     (by decide) ⟨by decide, by decide⟩ ⟨by decide, by decide⟩ (by decide)⟩

end NSC
